import Mathlib

/-!
Verification of the per-quadrature-point physics-update core of
`laghos_qupdate.cpp` (Laghos 2-D Lagrangian hydrodynamics).

The C++ kernels operate on `double` buffers; here the arithmetic is embedded
over the exact reals `ℝ`, with the flat `double[4]` matrix buffers modelled by
the four-field structure `Mat2` (flat index `k` of the buffer is field `mk`;
entry `(i,j)` in the column-major convention used by the source's `mult`
kernel is `m(i+2j)`).  Fixed-trip-count loops of the source are unrolled for
`dim = 2`, the only dimension the 2-D kernels run at.
-/

noncomputable section

/-- Flat 2x2 matrix buffer `double[4]`, as used by the dense micro-kernels of
`laghos_qupdate.cpp`; `mk` is buffer slot `k`. -/
@[ext]
structure Mat2 where
  m0 : ℝ
  m1 : ℝ
  m2 : ℝ
  m3 : ℝ

/-- Source `det2D` (laghos_qupdate.cpp:175): `d[0]*d[3] - d[1]*d[2]`. -/
def det2D (d : Mat2) : ℝ := d.m0 * d.m3 - d.m1 * d.m2

/-- Source `calcInverse2D` (laghos_qupdate.cpp:182): adjugate times the
reciprocal `t = 1/det` of the determinant, slot by slot:
`i[0] = a[3]*t`, `i[1] = -a[1]*t`, `i[2] = -a[2]*t`, `i[3] = a[0]*t`. -/
def calcInverse2D (a : Mat2) : Mat2 :=
  let t := 1 / det2D a
  ⟨a.m3 * t, -a.m1 * t, -a.m2 * t, a.m0 * t⟩

/-- Source `mult` (laghos_qupdate.cpp:76) at `ah = aw = bw = 2`:
column-major product `A = B*C`, `A[i+2j] = Σ_k B[i+2k]*C[k+2j]`. -/
def mult2 (B C : Mat2) : Mat2 :=
  ⟨B.m0 * C.m0 + B.m2 * C.m1,
   B.m1 * C.m0 + B.m3 * C.m1,
   B.m0 * C.m2 + B.m2 * C.m3,
   B.m1 * C.m2 + B.m3 * C.m3⟩

/-- Source `multABt` (laghos_qupdate.cpp:45) at `ah = aw = bh = 2`:
`C = A*Bᵗ`, `C[i+2j] = Σ_k A[i+2k]*B[j+2k]`. -/
def multABt2 (A B : Mat2) : Mat2 :=
  ⟨A.m0 * B.m0 + A.m2 * B.m2,
   A.m1 * B.m0 + A.m3 * B.m2,
   A.m0 * B.m1 + A.m2 * B.m3,
   A.m1 * B.m1 + A.m3 * B.m3⟩

/-- Source `multV` (laghos_qupdate.cpp:99) at `height = width = 2`:
`y = data * x` with `data` column-major. -/
def multV2 (data : Mat2) (x : ℝ × ℝ) : ℝ × ℝ :=
  (x.1 * data.m0 + x.2 * data.m2, x.1 * data.m1 + x.2 * data.m3)

/-- Source `add` (laghos_qupdate.cpp:133) at `height = width = 2`:
`D[k] += c * A[k]` for every flat slot `k`. -/
def add2 (c : ℝ) (A D : Mat2) : Mat2 :=
  ⟨D.m0 + c * A.m0, D.m1 + c * A.m1, D.m2 + c * A.m2, D.m3 + c * A.m3⟩

/-- Source `symmetrize` (laghos_qupdate.cpp:194) at `n = 2`: the single
off-diagonal pair is replaced by `0.5*(d[2] + d[1])`. -/
def symmetrize2 (d : Mat2) : Mat2 :=
  ⟨d.m0, 0.5 * (d.m2 + d.m1), 0.5 * (d.m2 + d.m1), d.m3⟩

/-- Source `cpysign` (laghos_qupdate.cpp:208): negate `x` exactly when the
strict signs of `x` and `y` disagree. -/
def cpysign (x y : ℝ) : ℝ :=
  if (x < 0 ∧ 0 < y) ∨ (0 < x ∧ y < 0) then -x else x

/-- Source `eigensystem2S` (laghos_qupdate.cpp:219): 2x2 symmetric Jacobi
rotation.  Input: off-diagonal `d12` and diagonal `d1, d2`.  Output
`(d1', d2', c, s)`: the rotated diagonal values and the rotation cosine/sine.
The rotation parameter `t` uses the numerically exact root of
`t^2 + 2*zeta*t - 1 = 0` when `|zeta| < sqrt(1/1e-16)` and the first-order
fallback `0.5/|zeta|` otherwise. -/
def eigensystem2S (d12 d1 d2 : ℝ) : ℝ × ℝ × ℝ × ℝ :=
  if d12 = 0 then (d1, d2, 1, 0)
  else
    let epsilon : ℝ := 1e-16
    let sqrt_1_eps := Real.sqrt (1 / epsilon)
    let zeta := (d2 - d1) / (2 * d12)
    let t :=
      if |zeta| < sqrt_1_eps then
        cpysign (1 / (|zeta| + Real.sqrt (1 + zeta * zeta))) zeta
      else
        cpysign (0.5 / |zeta|) zeta
    let c := Real.sqrt (1 / (1 + t * t))
    let s := c * t
    (d1 - t * d12, d2 + t * d12, c, s)

/-- Source `calcEigenvalues2D` (laghos_qupdate.cpp:251) at `n = 2`: runs the
Jacobi rotation on `(d[2], d[0], d[3])` and orders the two rotated values
ascending, swapping the eigenvector columns along with them.  Returns
`((lambda0, lambda1), vec)` with `vec` the flat eigenvector buffer. -/
def calcEigenvalues2D (d : Mat2) : (ℝ × ℝ) × Mat2 :=
  let r := eigensystem2S d.m2 d.m0 d.m3
  let d0 := r.1
  let d3 := r.2.1
  let c := r.2.2.1
  let s := r.2.2.2
  if d0 ≤ d3 then ((d0, d3), ⟨c, -s, s, c⟩)
  else ((d3, d0), ⟨s, c, c, -s⟩)

/-- Diagonal matrix builder used to state the eigen-reconstruction property
`V * diag(lambda0, lambda1) * Vᵗ = M`. -/
def diag2 (l0 l1 : ℝ) : Mat2 := ⟨l0, 0, 0, l1⟩

/-- Source `smooth_step_01` (laghos_qupdate.cpp:355): cubic Hermite smoothing
of the unit step, `y = (x+eps)/(2*eps)`, clamped to `[0,1]`. -/
def smooth_step_01 (x eps : ℝ) : ℝ :=
  let y := (x + eps) / (2 * eps)
  if y < 0 then 0
  else if 1 < y then 1
  else (3 - 2 * y) * y * y

/-- Loop body of source `norml2` (laghos_qupdate.cpp:148): state is the pair
`(scale, sum)`; zero entries are skipped; a new maximum magnitude rescales the
running sum of squares. -/
def norml2Go (st : ℝ × ℝ) (d : ℝ) : ℝ × ℝ :=
  if d = 0 then st
  else
    let absdata := |d|
    if st.1 ≤ absdata then
      (absdata, 1 + st.2 * ((st.1 / absdata) * (st.1 / absdata)))
    else
      (st.1, st.2 + (absdata / st.1) * (absdata / st.1))

/-- Source `norml2` (laghos_qupdate.cpp:148): early-outs for size 0 and 1,
otherwise the scale-free accumulation followed by `scale * sqrt(sum)`. -/
def norml2 : List ℝ → ℝ
  | [] => 0
  | [x] => |x|
  | l@(_ :: _ :: _) =>
    let st := l.foldl norml2Go (0, 0)
    st.1 * Real.sqrt st.2

-- ***************************************************************************
-- C6: inverse2D
-- ***************************************************************************

/-- C6: for every 2x2 matrix `M` with `det2D M ≠ 0`, the product
`M * calcInverse2D M` is the identity matrix, and `calcInverse2D M` is the
adjugate of `M` divided by `det2D M`. -/
theorem calcInverse2D_right_inverse (M : Mat2) (h : det2D M ≠ 0) :
    mult2 M (calcInverse2D M) = ⟨1, 0, 0, 1⟩ ∧
    calcInverse2D M =
      ⟨M.m3 / det2D M, -M.m1 / det2D M, -M.m2 / det2D M, M.m0 / det2D M⟩ := by
  have hd : M.m0 * M.m3 - M.m1 * M.m2 ≠ 0 := by
    simpa [det2D] using h
  constructor
  · simp only [mult2, calcInverse2D, det2D, Mat2.mk.injEq]
    refine ⟨?_, ?_, ?_, ?_⟩ <;> field_simp <;> ring
  · simp only [calcInverse2D, det2D, Mat2.mk.injEq]
    refine ⟨?_, ?_, ?_, ?_⟩ <;> field_simp

/-- Witness for C6 at the concrete matrix `[[2,1],[1,3]]` (flat `(2,1,1,3)`),
whose determinant is `5 ≠ 0`. -/
theorem calcInverse2D_right_inverse_witness :
    det2D ⟨2, 1, 1, 3⟩ ≠ 0 ∧
    (mult2 ⟨2, 1, 1, 3⟩ (calcInverse2D ⟨2, 1, 1, 3⟩) = ⟨1, 0, 0, 1⟩ ∧
      calcInverse2D ⟨2, 1, 1, 3⟩ =
        ⟨(3 : ℝ) / det2D ⟨2, 1, 1, 3⟩, -1 / det2D ⟨2, 1, 1, 3⟩,
          -1 / det2D ⟨2, 1, 1, 3⟩, 2 / det2D ⟨2, 1, 1, 3⟩⟩) :=
  ⟨by norm_num [det2D], calcInverse2D_right_inverse ⟨2, 1, 1, 3⟩ (by norm_num [det2D])⟩

-- ***************************************************************************
-- C7: smooth_step_01
-- ***************************************************************************

/-- Monotonicity of the cubic Hermite polynomial `(3 - 2y)*y*y` on `[0,1]`. -/
lemma cubic_hermite_mono {u v : ℝ} (hu : 0 ≤ u) (huv : u ≤ v) (hv : v ≤ 1) :
    (3 - 2 * u) * u * u ≤ (3 - 2 * v) * v * v := by
  nlinarith [mul_nonneg (mul_nonneg (sub_nonneg.2 huv) hu)
               (by linarith : (0 : ℝ) ≤ 3 - 2 * u - v),
             mul_nonneg (mul_nonneg (sub_nonneg.2 huv) (hu.trans huv))
               (by linarith : (0 : ℝ) ≤ 3 - u - 2 * v)]

/-- On the clamp-free band the step evaluates to the cubic polynomial. -/
lemma smooth_step_01_eq_poly {x eps : ℝ}
    (h0 : 0 ≤ (x + eps) / (2 * eps)) (h1 : (x + eps) / (2 * eps) ≤ 1) :
    smooth_step_01 x eps =
      (3 - 2 * ((x + eps) / (2 * eps))) * ((x + eps) / (2 * eps)) *
        ((x + eps) / (2 * eps)) := by
  simp only [smooth_step_01]
  rw [if_neg (not_lt.2 h0), if_neg (not_lt.2 h1)]

/-- Below `-eps` the argument clamps to 0. -/
lemma smooth_step_01_of_le {x eps : ℝ} (heps : 0 < eps) (hx : x ≤ -eps) :
    smooth_step_01 x eps = 0 := by
  have h2e : (0 : ℝ) < 2 * eps := by linarith
  have hy : (x + eps) / (2 * eps) ≤ 0 :=
    div_nonpos_of_nonpos_of_nonneg (by linarith) (le_of_lt h2e)
  rcases lt_or_eq_of_le hy with h | h
  · simp only [smooth_step_01]
    rw [if_pos h]
  · simp only [smooth_step_01]
    rw [h]
    norm_num

/-- Above `eps` the argument clamps to 1. -/
lemma smooth_step_01_of_ge {x eps : ℝ} (heps : 0 < eps) (hx : eps ≤ x) :
    smooth_step_01 x eps = 1 := by
  have h2e : (0 : ℝ) < 2 * eps := by linarith
  have hy : 1 ≤ (x + eps) / (2 * eps) := (one_le_div h2e).2 (by linarith)
  rcases lt_or_eq_of_le hy with h | h
  · simp only [smooth_step_01]
    rw [if_neg (by push_neg; linarith), if_pos h]
  · simp only [smooth_step_01]
    rw [← h]
    norm_num

/-- C7: for every `eps > 0`, `smooth_step_01` returns 0 for `x ≤ -eps`,
1 for `x ≥ eps`, exactly `1/2` at `x = 0`, and is monotonically non-decreasing
and continuous on `[-eps, eps]`. -/
theorem smooth_step_01_spec (eps : ℝ) (heps : 0 < eps) :
    (∀ x, x ≤ -eps → smooth_step_01 x eps = 0) ∧
    (∀ x, eps ≤ x → smooth_step_01 x eps = 1) ∧
    smooth_step_01 0 eps = 1 / 2 ∧
    MonotoneOn (fun x => smooth_step_01 x eps) (Set.Icc (-eps) eps) ∧
    ContinuousOn (fun x => smooth_step_01 x eps) (Set.Icc (-eps) eps) := by
  have h2e : (0 : ℝ) < 2 * eps := by linarith
  have hne : (2 : ℝ) * eps ≠ 0 := ne_of_gt h2e
  have hyx : ∀ x, -eps ≤ x → 0 ≤ (x + eps) / (2 * eps) := fun x hx =>
    div_nonneg (by linarith) (le_of_lt h2e)
  have hyx1 : ∀ x, x ≤ eps → (x + eps) / (2 * eps) ≤ 1 := fun x hx =>
    (div_le_one h2e).2 (by linarith)
  refine ⟨fun x hx => smooth_step_01_of_le heps hx,
          fun x hx => smooth_step_01_of_ge heps hx, ?_, ?_, ?_⟩
  · have hy : (0 + eps) / (2 * eps) = 1 / 2 := by
      field_simp
      ring
    rw [smooth_step_01_eq_poly (by rw [hy]; norm_num) (by rw [hy]; norm_num), hy]
    norm_num
  · intro a ha b hb hab
    have hua := hyx a ha.1
    have hvb := hyx1 b hb.2
    have huv : (a + eps) / (2 * eps) ≤ (b + eps) / (2 * eps) := by gcongr
    simp only
    rw [smooth_step_01_eq_poly hua (hyx1 a ha.2),
        smooth_step_01_eq_poly (hyx b hb.1) hvb]
    exact cubic_hermite_mono hua huv hvb
  · have hcont :
        Continuous fun x : ℝ =>
          (3 - 2 * ((x + eps) / (2 * eps))) * ((x + eps) / (2 * eps)) *
            ((x + eps) / (2 * eps)) := by
      have h1 : Continuous fun x : ℝ => (x + eps) / (2 * eps) :=
        (continuous_id.add continuous_const).div_const _
      exact ((continuous_const.sub (continuous_const.mul h1)).mul h1).mul h1
    refine hcont.continuousOn.congr ?_
    intro x hx
    exact smooth_step_01_eq_poly (hyx x hx.1) (hyx1 x hx.2)

/-- Witness for C7 at `eps = 1`: the midpoint value is exactly `1/2`. -/
theorem smooth_step_01_spec_witness :
    (0 : ℝ) < 1 ∧ smooth_step_01 0 1 = 1 / 2 :=
  ⟨one_pos, (smooth_step_01_spec 1 one_pos).2.2.1⟩

-- ***************************************************************************
-- C8: norml2
-- ***************************************************************************

/-- Folding the `norml2` loop body over a list of zeros keeps the initial
`(scale, sum) = (0, 0)` state: every iteration takes the `data[i] == 0`
skip branch. -/
lemma norml2Go_zeros (l : List ℝ) (hl : ∀ x ∈ l, x = 0) :
    l.foldl norml2Go (0, 0) = (0, 0) := by
  induction l with
  | nil => rfl
  | cons a t ih =>
    have ha : a = 0 := hl a (by simp)
    simp only [List.foldl, ha]
    rw [show norml2Go (0, 0) 0 = (0, 0) by simp [norml2Go]]
    exact ih fun x hx => hl x (List.mem_cons_of_mem _ hx)

/-- C8: `norml2` returns exactly 0 on the empty vector and on every all-zero
vector, and returns `|x|` on a one-element vector `[x]`. -/
theorem norml2_spec :
    norml2 [] = 0 ∧
    (∀ l : List ℝ, (∀ x ∈ l, x = 0) → norml2 l = 0) ∧
    (∀ x : ℝ, norml2 [x] = |x|) := by
  refine ⟨rfl, ?_, fun x => rfl⟩
  intro l hl
  match l with
  | [] => rfl
  | [x] =>
    have hx : x = 0 := hl x (by simp)
    simp [norml2, hx]
  | a :: b :: r =>
    have h := norml2Go_zeros (a :: b :: r) hl
    rw [show norml2 (a :: b :: r) =
          (List.foldl norml2Go (0, 0) (a :: b :: r)).1 *
            Real.sqrt (List.foldl norml2Go (0, 0) (a :: b :: r)).2 from rfl, h]
    simp

/-- Witness for C8 on the concrete all-zero vector `[0, 0, 0]`. -/
theorem norml2_spec_witness :
    (∀ x ∈ [(0 : ℝ), 0, 0], x = 0) ∧ norml2 [(0 : ℝ), 0, 0] = 0 :=
  ⟨by simp, norml2_spec.2.1 [0, 0, 0] (by simp)⟩

-- ***************************************************************************
-- C1: per-point dt_est update (laghos_qupdate.cpp:496-508)
-- ***************************************************************************

/-- Per-point `dt_est` slot update of `QUpdate2D` (laghos_qupdate.cpp:496):
`if (min_detJ < 0.0) d_dt_est[zq] = 0.0; else if (inv_dt > 0.0)
d_dt_est[zq] = fmin(d_dt_est[zq], cfl/inv_dt);` with `prev` the slot's value
before the update and `min_detJ` the tracked running minimum Jacobian
determinant for the thread's points of the zone. -/
def dtEstUpdate (cfl min_detJ inv_dt prev : ℝ) : ℝ :=
  if min_detJ < 0 then 0
  else if 0 < inv_dt then min prev (cfl / inv_dt)
  else prev

/-- Counterexample to C1 as stated: with the tracked minimum determinant
exactly 0 (non-positive, but not negative) and `inv_dt = 0`, the slot keeps
its previous value 1 instead of being forced to 0: the source's zeroing guard
is the strict test `min_detJ < 0.0`. -/
theorem dtEstUpdate_not_forced_at_zero_detJ :
    dtEstUpdate 1 0 0 1 = 1 ∧ (1 : ℝ) ≠ 0 := by
  constructor
  · norm_num [dtEstUpdate]
  · norm_num

/-- C1 (amended): the slot is forced to exactly 0 when the tracked minimum
determinant is strictly negative; otherwise, for `inv_dt > 0` it becomes the
minimum of its previous value and `cfl / inv_dt`, and for `inv_dt ≤ 0` it is
left unchanged. -/
theorem dtEstUpdate_spec (cfl min_detJ inv_dt prev : ℝ) :
    (min_detJ < 0 → dtEstUpdate cfl min_detJ inv_dt prev = 0) ∧
    (0 ≤ min_detJ →
      (0 < inv_dt →
        dtEstUpdate cfl min_detJ inv_dt prev = min prev (cfl / inv_dt)) ∧
      (inv_dt ≤ 0 → dtEstUpdate cfl min_detJ inv_dt prev = prev)) := by
  refine ⟨fun h => by simp [dtEstUpdate, h], fun h => ⟨fun hi => ?_, fun hi => ?_⟩⟩
  · rw [dtEstUpdate, if_neg (not_lt.2 h), if_pos hi]
  · rw [dtEstUpdate, if_neg (not_lt.2 h), if_neg (not_lt.2 hi)]

/-- Witness for the amended C1: a negative tracked determinant forces the
slot to 0, and a non-negative one with positive `inv_dt` takes the minimum. -/
theorem dtEstUpdate_spec_witness :
    ((-1 : ℝ) < 0 ∧ dtEstUpdate 2 (-1) 4 3 = 0) ∧
    ((0 : ℝ) ≤ 1 ∧ (0 : ℝ) < 4 ∧ dtEstUpdate 2 1 4 3 = min 3 (2 / 4)) :=
  ⟨⟨by norm_num, (dtEstUpdate_spec 2 (-1) 4 3).1 (by norm_num)⟩,
   ⟨by norm_num, by norm_num,
    ((dtEstUpdate_spec 2 1 4 3).2 (by norm_num)).1 (by norm_num)⟩⟩

-- ***************************************************************************
-- C10: global dt_est reduction (laghos_qupdate.cpp:833, 851-857)
-- ***************************************************************************

/-- Minimum of a non-empty list, modelling `Vector::Min()` over the
`nzones * nqp` slots of `d_dt_est` (the empty case never arises and is given
the junk value 0). -/
def listMin : List ℝ → ℝ
  | [] => 0
  | x :: xs => xs.foldl min x

/-- Orchestrator dt handling of `UpdateQuadratureData2D`
(laghos_qupdate.cpp:833, 851-857): every slot of the scratch buffer is first
set to the previous scalar estimate `prev` (`d_dt_est = quad_data.dt_est`),
then each slot is updated by the per-point rule with that point's tracked
minimum determinant and `inv_dt` (the pair carried by `pts`), and the new
scalar estimate is the minimum over all slots (`quad_data.dt_est =
d_dt_est.Min()`). -/
def updateGlobalDtEst (cfl prev : ℝ) (pts : List (ℝ × ℝ)) : ℝ :=
  listMin (pts.map fun pr => dtEstUpdate cfl pr.1 pr.2 prev)

/-- Folding `min` can only shrink the accumulator. -/
lemma foldl_min_le_init (l : List ℝ) (a : ℝ) : l.foldl min a ≤ a := by
  induction l generalizing a with
  | nil => exact le_refl a
  | cons x xs ih => exact le_trans (ih (min a x)) (min_le_left a x)

/-- The minimum of a non-empty list is at most any bound dominating all its
elements. -/
lemma listMin_le_of_forall_le {l : List ℝ} {c : ℝ} (hne : l ≠ [])
    (h : ∀ y ∈ l, y ≤ c) : listMin l ≤ c := by
  match l with
  | [] => exact absurd rfl hne
  | x :: xs =>
    exact le_trans (foldl_min_le_init xs x) (h x (by simp))

/-- Every slot outcome is bounded by the previous estimate when the previous
estimate is non-negative. -/
lemma dtEstUpdate_le_prev (cfl min_detJ inv_dt : ℝ) {prev : ℝ}
    (hprev : 0 ≤ prev) : dtEstUpdate cfl min_detJ inv_dt prev ≤ prev := by
  rw [dtEstUpdate]
  split
  · exact hprev
  · split
    · exact min_le_left _ _
    · exact le_refl prev

/-- C10: a completed 2-D quadrature-data update never raises the global scalar
`dt_est`: with every slot initialized to the previous (non-negative) global
estimate and then left unchanged, lowered by a `min`, or zeroed, the reduced
minimum over a non-empty slot list is at most the previous estimate. -/
theorem updateGlobalDtEst_mono (cfl prev : ℝ) (pts : List (ℝ × ℝ))
    (hprev : 0 ≤ prev) (hne : pts ≠ []) :
    (∀ y ∈ pts.map fun pr => dtEstUpdate cfl pr.1 pr.2 prev, y ≤ prev) ∧
    updateGlobalDtEst cfl prev pts ≤ prev := by
  have hall : ∀ y ∈ pts.map fun pr => dtEstUpdate cfl pr.1 pr.2 prev, y ≤ prev := by
    intro y hy
    rcases List.mem_map.1 hy with ⟨pr, _, rfl⟩
    exact dtEstUpdate_le_prev cfl pr.1 pr.2 hprev
  refine ⟨hall, listMin_le_of_forall_le ?_ hall⟩
  intro hmap
  exact hne (List.map_eq_nil_iff.1 hmap)

/-- Witness for C10: one zone slot with `min_detJ = 1`, `inv_dt = 2`,
previous global estimate 1, CFL 1. -/
theorem updateGlobalDtEst_mono_witness :
    ((0 : ℝ) ≤ 1 ∧ ([((1 : ℝ), (2 : ℝ))] ≠ [])) ∧
    updateGlobalDtEst 1 1 [(1, 2)] ≤ 1 :=
  ⟨⟨by norm_num, by simp⟩,
   (updateGlobalDtEst_mono 1 1 [(1, 2)] (by norm_num) (by simp)).2⟩

-- ***************************************************************************
-- C3: staleness flag no-op (laghos_qupdate.cpp:795-861)
-- ***************************************************************************

/-- Persistent outputs of the quadrature-data update that the claim tracks:
the reduced scalar time-step estimate and the partial-assembly tensor. -/
structure QuadData where
  dt_est : ℝ
  stressJinvT : List Mat2

/-- Source `QUpdate::UpdateQuadratureData2D` control flow
(laghos_qupdate.cpp:795-861): `if (quad_data_is_current) { return; }` and
otherwise the recomputation `compute` (basis evaluation, `QUpdate2D` kernel
and the `Min` reduction, lines 804-857) runs and the flag is set to `true`.
The function value is the final `(flag, quad_data)` pair. -/
def UpdateQuadratureData2D (compute : QuadData → QuadData)
    (quad_data_is_current : Bool) (quad_data : QuadData) : Bool × QuadData :=
  if quad_data_is_current then (quad_data_is_current, quad_data)
  else (true, compute quad_data)

/-- C3: a call with the staleness flag already `CURRENT` returns immediately
with every output (flag, `dt_est`, `stressJinvT`) untouched, and since any
completed call leaves the flag `true`, a second call right after a first one
is a no-op: the final `(flag, dt_est, stressJinvT)` triple is identical to
the state after the first call. -/
theorem UpdateQuadratureData2D_noop (compute : QuadData → QuadData)
    (flag : Bool) (qd : QuadData) :
    UpdateQuadratureData2D compute true qd = (true, qd) ∧
    UpdateQuadratureData2D compute
        (UpdateQuadratureData2D compute flag qd).1
        (UpdateQuadratureData2D compute flag qd).2 =
      UpdateQuadratureData2D compute flag qd := by
  constructor
  · rfl
  · cases flag <;> rfl

-- ***************************************************************************
-- C4: dispatch tables (laghos_qupdate.cpp:630-643, 839-854)
-- ***************************************************************************

/-- Specialization table of `Dof2QuadScalar` (laghos_qupdate.cpp:631): the
key is the encoded id, the payload the `(D1D, Q1D)` template arguments of the
registered `vecToQuad2D` instantiation (`0x124 -> <1,2,4,8>`,
`0x136 -> <1,3,6,4>`, `0x148 -> <1,4,8,2>`). -/
def dof2QuadScalarTable : List (ℕ × (ℕ × ℕ)) :=
  [(0x124, (2, 4)), (0x136, (3, 6)), (0x148, (4, 8))]

/-- Specialization table of `UpdateQuadratureData2D`
(laghos_qupdate.cpp:840): key `nqp1D`, payload the `Q1D` template argument of
the registered `QUpdate2D` instantiation. -/
def qupdate2DTable : List (ℕ × ℕ) := [(0x4, 4), (0x6, 6), (0x8, 8)]

/-- Key encoding of `Dof2QuadScalar` (laghos_qupdate.cpp:630):
`id = (vdim << 8) | (dofs1D << 4) | quad1D`. -/
def dof2QuadScalarId (vdim dofs1D quad1D : ℕ) : ℕ :=
  (vdim <<< 8) ||| (dofs1D <<< 4) ||| quad1D

/-- Dispatch of `Dof2QuadScalar` (laghos_qupdate.cpp:630-643).  In the source
an unregistered key prints the offending id and then invokes the
default-constructed null entry `call[id]`, killing the process before any
output buffer is touched; this fatal reported-with-key outcome is modelled as
`Except.error id`.  A registered key selects the specialized kernel, modelled
by returning its `(D1D, Q1D)` parameters. -/
def Dof2QuadScalarDispatch (vdim dofs1D quad1D : ℕ) : Except ℕ (ℕ × ℕ) :=
  let id := dof2QuadScalarId vdim dofs1D quad1D
  match dof2QuadScalarTable.lookup id with
  | none => Except.error id
  | some p => Except.ok p

/-- Dispatch of the physics-update kernel (laghos_qupdate.cpp:839-854), keyed
by `nqp1D` alone; unregistered keys are fatal-with-reported-key as above. -/
def qupdate2DDispatch (nqp1D : ℕ) : Except ℕ ℕ :=
  match qupdate2DTable.lookup nqp1D with
  | none => Except.error nqp1D
  | some q => Except.ok q

/-- C4: a dispatch key absent from its specialization table is a fatal error
reported together with the offending key, and no kernel is selected for it
(no downstream buffer write happens): both lookups return exactly
`Except.error id`, never a kernel. -/
theorem dispatch_unregistered_fatal :
    (∀ vdim dofs1D quad1D : ℕ,
      dof2QuadScalarId vdim dofs1D quad1D ∉ dof2QuadScalarTable.map Prod.fst →
      Dof2QuadScalarDispatch vdim dofs1D quad1D =
        Except.error (dof2QuadScalarId vdim dofs1D quad1D)) ∧
    (∀ nqp1D : ℕ, nqp1D ∉ qupdate2DTable.map Prod.fst →
      qupdate2DDispatch nqp1D = Except.error nqp1D) := by
  constructor
  · intro vdim dofs1D quad1D hid
    simp only [dof2QuadScalarTable, List.map, Prod.fst, List.mem_cons,
      List.not_mem_nil, or_false, not_or] at hid
    obtain ⟨h1, h2, h3⟩ := hid
    have b1 := beq_eq_false_iff_ne.mpr h1
    have b2 := beq_eq_false_iff_ne.mpr h2
    have b3 := beq_eq_false_iff_ne.mpr h3
    simp [Dof2QuadScalarDispatch, dof2QuadScalarTable, List.lookup, b1, b2, b3]
  · intro nqp1D hid
    simp only [qupdate2DTable, List.map, Prod.fst, List.mem_cons,
      List.not_mem_nil, or_false, not_or] at hid
    obtain ⟨h1, h2, h3⟩ := hid
    have b1 := beq_eq_false_iff_ne.mpr h1
    have b2 := beq_eq_false_iff_ne.mpr h2
    have b3 := beq_eq_false_iff_ne.mpr h3
    simp [qupdate2DDispatch, qupdate2DTable, List.lookup, b1, b2, b3]

/-- Witness for C4 at the unregistered key `0x159` (vdim 1, dofs1D 5,
quad1D 9) and the unregistered physics-update key 5. -/
theorem dispatch_unregistered_fatal_witness :
    (dof2QuadScalarId 1 5 9 ∉ dof2QuadScalarTable.map Prod.fst ∧
      Dof2QuadScalarDispatch 1 5 9 = Except.error (dof2QuadScalarId 1 5 9)) ∧
    ((5 : ℕ) ∉ qupdate2DTable.map Prod.fst ∧
      qupdate2DDispatch 5 = Except.error 5) :=
  ⟨⟨by decide, dispatch_unregistered_fatal.1 1 5 9 (by decide)⟩,
   ⟨by decide, dispatch_unregistered_fatal.2 5 (by decide)⟩⟩

-- ***************************************************************************
-- C9: vecToQuad2D constant reproduction (laghos_qupdate.cpp:527-606)
-- ***************************************************************************

/-- Source `vecToQuad2D` (laghos_qupdate.cpp:527) for one zone and one vector
component: the sum-factorized evaluation
`DD[dy][dx] = x(dx,dy)`, `DQ[dy][qx] = sum_dx B[qx][dx]*DD[dy][dx]`,
`y(qx,qy) = sum_dy DQ[dy][qx]*B[qy][dy]`. -/
def vecToQuad2D (D1D Q1D : ℕ) (b : Fin Q1D → Fin D1D → ℝ)
    (x : Fin D1D → Fin D1D → ℝ) : Fin Q1D → Fin Q1D → ℝ :=
  fun qx qy => ∑ dy, (∑ dx, b qx dx * x dx dy) * b qy dy

/-- C9: for every order pair `(D1D, Q1D)` registered in the scalar dispatch
table, if the 1-D interpolation matrix `B` maps the constant nodal vector to
the constant (each row of `B` sums to 1 — the defining property of the
nodal-to-quadrature interpolation operator supplied by the discretization
collaborator), then evaluating constant nodal coefficients `k` yields `k` at
every quadrature point of every zone. -/
theorem vecToQuad2D_const (p : ℕ × (ℕ × ℕ)) (_hp : p ∈ dof2QuadScalarTable)
    (b : Fin p.2.2 → Fin p.2.1 → ℝ) (hb : ∀ q, ∑ d, b q d = 1) (k : ℝ)
    (x : Fin p.2.1 → Fin p.2.1 → ℝ) (hx : ∀ dx dy, x dx dy = k) :
    ∀ qx qy, vecToQuad2D p.2.1 p.2.2 b x qx qy = k := by
  intro qx qy
  have hrow : ∀ q : Fin p.2.2, (∑ dx, b q dx * k) = k := by
    intro q
    rw [← Finset.sum_mul, hb, one_mul]
  calc vecToQuad2D p.2.1 p.2.2 b x qx qy
      = ∑ dy, (∑ dx, b qx dx * k) * b qy dy := by
        simp only [vecToQuad2D, hx]
    _ = ∑ dy, k * b qy dy := by
        simp only [hrow]
    _ = k * ∑ dy, b qy dy := by
        rw [Finset.mul_sum]
    _ = k := by rw [hb, mul_one]

/-- Witness for C9 at the registered entry `0x124 -> (D1D, Q1D) = (2, 4)`,
with the concrete row-stochastic matrix `B` all of whose entries are `1/2`
and constant nodal coefficients `k = 5`. -/
theorem vecToQuad2D_const_witness :
    ((0x124, ((2 : ℕ), (4 : ℕ))) ∈ dof2QuadScalarTable ∧
      (∀ q : Fin 4, ∑ d : Fin 2, (fun (_ : Fin 4) (_ : Fin 2) => (1 : ℝ) / 2) q d = 1)) ∧
    (∀ qx qy, vecToQuad2D 2 4 (fun _ _ => (1 : ℝ) / 2) (fun _ _ => 5) qx qy = 5) :=
  ⟨⟨by simp [dof2QuadScalarTable], fun q => by simp [Fin.sum_univ_two]⟩,
   vecToQuad2D_const (0x124, (2, 4)) (by simp [dof2QuadScalarTable])
     (fun _ _ => (1 : ℝ) / 2) (fun q => by simp [Fin.sum_univ_two]) 5
     (fun _ _ => 5) (fun _ _ => rfl)⟩

-- ***************************************************************************
-- C5: calcEigenvalues2D / eigensystem2S (laghos_qupdate.cpp:219-279)
-- ***************************************************************************

/-- `cpysign` keeps a positive magnitude when the sign argument is
non-negative. -/
lemma cpysign_pos_nonneg {x : ℝ} (hx : 0 < x) {y : ℝ} (hy : 0 ≤ y) :
    cpysign x y = x := by
  rw [cpysign, if_neg]
  rintro (⟨h1, _⟩ | ⟨_, h2⟩) <;> linarith

/-- `cpysign` negates a positive magnitude when the sign argument is
negative. -/
lemma cpysign_pos_neg {x : ℝ} (hx : 0 < x) {y : ℝ} (hy : y < 0) :
    cpysign x y = -x := by
  rw [cpysign, if_pos (Or.inr ⟨hx, hy⟩)]

/-- The source's `sqrt_1_eps` threshold evaluates to exactly `1e8`. -/
lemma sqrt_inv_1e16 : Real.sqrt (1 / (1e-16 : ℝ)) = 1e8 := by
  rw [show (1 / (1e-16 : ℝ)) = (1e8 : ℝ) ^ 2 by norm_num]
  exact Real.sqrt_sq (by norm_num)

/-- Rotation parameter of `eigensystem2S` in the near (numerically exact)
branch `|zeta| < sqrt(1/eps)`:
`t = cpysign(1/(|zeta| + sqrt(1 + zeta^2)), zeta)`. -/
def jacobiT (z : ℝ) : ℝ := cpysign (1 / (|z| + Real.sqrt (1 + z * z))) z

/-- Rotation parameter of `eigensystem2S` in the far (fallback) branch:
`t = cpysign(0.5/|zeta|, zeta)`. -/
def jacobiTFar (z : ℝ) : ℝ := cpysign (0.5 / |z|) z

/-- The near-branch rotation parameter is an exact root of the Jacobi
quadratic `t^2 + 2*zeta*t - 1 = 0`; this is what makes the rotated diagonal
values exact eigenvalues in that branch. -/
lemma jacobiT_quad (z : ℝ) :
    jacobiT z * jacobiT z + 2 * z * jacobiT z - 1 = 0 := by
  have hS : Real.sqrt (1 + z * z) * Real.sqrt (1 + z * z) = 1 + z * z :=
    Real.mul_self_sqrt (by nlinarith [mul_self_nonneg z])
  have hSpos : 0 < Real.sqrt (1 + z * z) :=
    Real.sqrt_pos.mpr (by nlinarith [mul_self_nonneg z])
  have hden : 0 < |z| + Real.sqrt (1 + z * z) := by
    have := abs_nonneg z
    linarith
  have hx : 0 < 1 / (|z| + Real.sqrt (1 + z * z)) := by positivity
  rcases le_or_lt 0 z with hz | hz
  · have habs : |z| = z := abs_of_nonneg hz
    rw [jacobiT, cpysign_pos_nonneg hx hz, habs]
    have hne : z + Real.sqrt (1 + z * z) ≠ 0 := by
      rw [habs] at hden
      exact ne_of_gt hden
    field_simp
    linear_combination -hS
  · have habs : |z| = -z := abs_of_neg hz
    rw [jacobiT, cpysign_pos_neg hx hz, habs]
    have hne : -z + Real.sqrt (1 + z * z) ≠ 0 := by
      rw [habs] at hden
      exact ne_of_gt hden
    field_simp
    linear_combination -hS

/-- Unfolding of `eigensystem2S` in the near branch. -/
lemma eigensystem2S_exact {d12 d1 d2 : ℝ} (h12 : d12 ≠ 0)
    (hb : |(d2 - d1) / (2 * d12)| < Real.sqrt (1 / (1e-16 : ℝ))) :
    eigensystem2S d12 d1 d2 =
      (d1 - jacobiT ((d2 - d1) / (2 * d12)) * d12,
       d2 + jacobiT ((d2 - d1) / (2 * d12)) * d12,
       Real.sqrt (1 / (1 + jacobiT ((d2 - d1) / (2 * d12)) *
         jacobiT ((d2 - d1) / (2 * d12)))),
       Real.sqrt (1 / (1 + jacobiT ((d2 - d1) / (2 * d12)) *
         jacobiT ((d2 - d1) / (2 * d12)))) * jacobiT ((d2 - d1) / (2 * d12))) := by
  simp only [eigensystem2S, jacobiT]
  rw [if_neg h12, if_pos hb]

/-- Unfolding of `eigensystem2S` in the far branch. -/
lemma eigensystem2S_far {d12 d1 d2 : ℝ} (h12 : d12 ≠ 0)
    (hb : ¬ |(d2 - d1) / (2 * d12)| < Real.sqrt (1 / (1e-16 : ℝ))) :
    eigensystem2S d12 d1 d2 =
      (d1 - jacobiTFar ((d2 - d1) / (2 * d12)) * d12,
       d2 + jacobiTFar ((d2 - d1) / (2 * d12)) * d12,
       Real.sqrt (1 / (1 + jacobiTFar ((d2 - d1) / (2 * d12)) *
         jacobiTFar ((d2 - d1) / (2 * d12)))),
       Real.sqrt (1 / (1 + jacobiTFar ((d2 - d1) / (2 * d12)) *
         jacobiTFar ((d2 - d1) / (2 * d12)))) * jacobiTFar ((d2 - d1) / (2 * d12))) := by
  simp only [eigensystem2S, jacobiTFar]
  rw [if_neg h12, if_neg hb]

/-- C5 (amended): for every symmetric 2x2 matrix `M` (`m1 = m2`),
`calcEigenvalues2D` returns values ordered `lambda0 ≤ lambda1` and an
orthonormal eigenvector matrix `V`, and — provided the rotation takes the
identity case (`m2 = 0`) or the numerically exact near branch
(`|zeta| = |(m3 - m0)/(2*m2)| < 1e8`) — reconstructs the input exactly:
`V * diag(lambda0, lambda1) * Vᵗ = M`.  When the off-diagonal entry is
exactly zero the rotation is the identity `(c, s) = (1, 0)`.  (In the far
branch `|zeta| ≥ 1e8` the fallback `t = 0.5/|zeta|` is only approximate and
exact reconstruction fails; see the counterexample.) -/
theorem calcEigenvalues2D_spec (M : Mat2) (hSym : M.m1 = M.m2)
    (hBr : M.m2 = 0 ∨ |(M.m3 - M.m0) / (2 * M.m2)| < 1e8) :
    (calcEigenvalues2D M).1.1 ≤ (calcEigenvalues2D M).1.2 ∧
    ((calcEigenvalues2D M).2.m0 * (calcEigenvalues2D M).2.m0 +
        (calcEigenvalues2D M).2.m1 * (calcEigenvalues2D M).2.m1 = 1 ∧
      (calcEigenvalues2D M).2.m2 * (calcEigenvalues2D M).2.m2 +
        (calcEigenvalues2D M).2.m3 * (calcEigenvalues2D M).2.m3 = 1 ∧
      (calcEigenvalues2D M).2.m0 * (calcEigenvalues2D M).2.m2 +
        (calcEigenvalues2D M).2.m1 * (calcEigenvalues2D M).2.m3 = 0) ∧
    multABt2
        (mult2 (calcEigenvalues2D M).2
          (diag2 (calcEigenvalues2D M).1.1 (calcEigenvalues2D M).1.2))
        (calcEigenvalues2D M).2 = M ∧
    (M.m2 = 0 →
      (eigensystem2S M.m2 M.m0 M.m3).2.2.1 = 1 ∧
      (eigensystem2S M.m2 M.m0 M.m3).2.2.2 = 0) := by
  by_cases h0 : M.m2 = 0
  · have heig : eigensystem2S M.m2 M.m0 M.m3 = (M.m0, M.m3, 1, 0) := by
      simp [eigensystem2S, h0]
    by_cases hord : M.m0 ≤ M.m3
    · have hcalc : calcEigenvalues2D M = ((M.m0, M.m3), ⟨1, 0, 0, 1⟩) := by
        simp [calcEigenvalues2D, heig, hord]
      rw [hcalc]
      refine ⟨hord, ⟨by norm_num, by norm_num, by norm_num⟩, ?_,
        fun _ => by rw [heig]; exact ⟨rfl, rfl⟩⟩
      dsimp only [mult2, multABt2, diag2]
      ext <;> dsimp only <;> linarith [hSym, h0]
    · have hcalc : calcEigenvalues2D M = ((M.m3, M.m0), ⟨0, 1, 1, 0⟩) := by
        simp [calcEigenvalues2D, heig, hord]
      rw [hcalc]
      refine ⟨le_of_not_le hord, ⟨by norm_num, by norm_num, by norm_num⟩, ?_,
        fun _ => by rw [heig]; exact ⟨rfl, rfl⟩⟩
      dsimp only [mult2, multABt2, diag2]
      ext <;> dsimp only <;> linarith [hSym, h0]
  · rcases hBr with h | hb
    · exact absurd h h0
    have hb' : |(M.m3 - M.m0) / (2 * M.m2)| < Real.sqrt (1 / (1e-16 : ℝ)) := by
      rw [sqrt_inv_1e16]
      exact hb
    have heig := eigensystem2S_exact h0 hb'
    have hK := jacobiT_quad ((M.m3 - M.m0) / (2 * M.m2))
    set t := jacobiT ((M.m3 - M.m0) / (2 * M.m2)) with htdef
    set c := Real.sqrt (1 / (1 + t * t)) with hcdef
    have hzeta : 2 * M.m2 * ((M.m3 - M.m0) / (2 * M.m2)) = M.m3 - M.m0 := by
      field_simp
    have hK' : t * t * M.m2 + (M.m3 - M.m0) * t - M.m2 = 0 := by
      linear_combination M.m2 * hK - t * hzeta
    have htt : (0 : ℝ) < 1 + t * t := by nlinarith [mul_self_nonneg t]
    have hc1 : c * c * (1 + t * t) = 1 := by
      rw [hcdef, Real.mul_self_sqrt (le_of_lt (div_pos one_pos htt))]
      exact one_div_mul_cancel (ne_of_gt htt)
    have hident : M.m2 = 0 →
        (eigensystem2S M.m2 M.m0 M.m3).2.2.1 = 1 ∧
        (eigensystem2S M.m2 M.m0 M.m3).2.2.2 = 0 := fun h => absurd h h0
    by_cases hord : M.m0 - t * M.m2 ≤ M.m3 + t * M.m2
    · have hcalc : calcEigenvalues2D M =
          ((M.m0 - t * M.m2, M.m3 + t * M.m2), ⟨c, -(c * t), c * t, c⟩) := by
        simp only [calcEigenvalues2D, heig]
        rw [if_pos hord]
      rw [hcalc]
      refine ⟨hord, ⟨?_, ?_, ?_⟩, ?_, hident⟩
      · dsimp only
        linear_combination hc1
      · dsimp only
        linear_combination hc1
      · dsimp only
        ring
      · dsimp only [mult2, multABt2, diag2]
        ext <;> dsimp only
        · linear_combination (c * c * t) * hK' + M.m0 * hc1
        · linear_combination (c * c) * hK' + M.m2 * hc1 - hSym
        · linear_combination (c * c) * hK' + M.m2 * hc1
        · linear_combination (-(c * c * t)) * hK' + M.m3 * hc1
    · have hcalc : calcEigenvalues2D M =
          ((M.m3 + t * M.m2, M.m0 - t * M.m2), ⟨c * t, c, c, -(c * t)⟩) := by
        simp only [calcEigenvalues2D, heig]
        rw [if_neg hord]
      rw [hcalc]
      refine ⟨le_of_not_le hord, ⟨?_, ?_, ?_⟩, ?_, hident⟩
      · dsimp only
        linear_combination hc1
      · dsimp only
        linear_combination hc1
      · dsimp only
        ring
      · dsimp only [mult2, multABt2, diag2]
        ext <;> dsimp only
        · linear_combination (c * c * t) * hK' + M.m0 * hc1
        · linear_combination (c * c) * hK' + M.m2 * hc1 - hSym
        · linear_combination (c * c) * hK' + M.m2 * hc1
        · linear_combination (-(c * c * t)) * hK' + M.m3 * hc1

/-- Witness for C5 at the symmetric matrix `[[2,1],[1,2]]`, which takes the
numerically exact near branch (`zeta = 0`). -/
theorem calcEigenvalues2D_spec_witness :
    ((⟨2, 1, 1, 2⟩ : Mat2).m1 = (⟨2, 1, 1, 2⟩ : Mat2).m2 ∧
      |((⟨2, 1, 1, 2⟩ : Mat2).m3 - (⟨2, 1, 1, 2⟩ : Mat2).m0) /
          (2 * (⟨2, 1, 1, 2⟩ : Mat2).m2)| < 1e8) ∧
    multABt2
        (mult2 (calcEigenvalues2D ⟨2, 1, 1, 2⟩).2
          (diag2 (calcEigenvalues2D ⟨2, 1, 1, 2⟩).1.1
            (calcEigenvalues2D ⟨2, 1, 1, 2⟩).1.2))
        (calcEigenvalues2D ⟨2, 1, 1, 2⟩).2 = ⟨2, 1, 1, 2⟩ :=
  ⟨⟨rfl, by norm_num⟩,
   (calcEigenvalues2D_spec ⟨2, 1, 1, 2⟩ rfl (Or.inr (by norm_num))).2.2.1⟩

/-- Counterexample to C5 as stated: the symmetric matrix `[[0,1],[1,4e8]]`
has `zeta = 2e8 ≥ 1e8`, so `eigensystem2S` takes the far fallback branch
whose rotation parameter `t = 0.5/|zeta|` does not solve the Jacobi quadratic
exactly; in exact real arithmetic the reconstruction
`V * diag(lambda0, lambda1) * Vᵗ` then differs from the input (its (0,0)
entry is `t^3/(1+t^2) ≠ 0`). -/
theorem calcEigenvalues2D_reconstruct_fails :
    (multABt2
        (mult2 (calcEigenvalues2D ⟨0, 1, 1, 4e8⟩).2
          (diag2 (calcEigenvalues2D ⟨0, 1, 1, 4e8⟩).1.1
            (calcEigenvalues2D ⟨0, 1, 1, 4e8⟩).1.2))
        (calcEigenvalues2D ⟨0, 1, 1, 4e8⟩).2 ≠ (⟨0, 1, 1, 4e8⟩ : Mat2)) ∧
    (⟨0, 1, 1, 4e8⟩ : Mat2).m1 = (⟨0, 1, 1, 4e8⟩ : Mat2).m2 := by
  have hz : ((4e8 : ℝ) - 0) / (2 * 1) = 2e8 := by norm_num
  have hfar : ¬ |((4e8 : ℝ) - 0) / (2 * 1)| < Real.sqrt (1 / (1e-16 : ℝ)) := by
    rw [hz, sqrt_inv_1e16, abs_of_pos (by norm_num : (0 : ℝ) < 2e8)]
    norm_num
  have ht : jacobiTFar (((4e8 : ℝ) - 0) / (2 * 1)) = 1 / 400000000 := by
    rw [jacobiTFar, hz, abs_of_pos (by norm_num : (0 : ℝ) < 2e8),
        cpysign_pos_nonneg (by norm_num) (by norm_num)]
    norm_num
  have heig := eigensystem2S_far (show (1 : ℝ) ≠ 0 by norm_num) hfar
  rw [ht] at heig
  have hcalc : calcEigenvalues2D ⟨0, 1, 1, 4e8⟩ =
      ((0 - 1 / 400000000 * 1, 4e8 + 1 / 400000000 * 1),
        ⟨Real.sqrt (1 / (1 + 1 / 400000000 * (1 / 400000000))),
         -(Real.sqrt (1 / (1 + 1 / 400000000 * (1 / 400000000))) * (1 / 400000000)),
         Real.sqrt (1 / (1 + 1 / 400000000 * (1 / 400000000))) * (1 / 400000000),
         Real.sqrt (1 / (1 + 1 / 400000000 * (1 / 400000000)))⟩) := by
    simp only [calcEigenvalues2D]
    rw [heig, if_pos (by norm_num : (0 : ℝ) - 1 / 400000000 * 1 ≤ 4e8 + 1 / 400000000 * 1)]
  refine ⟨?_, rfl⟩
  intro hEq
  rw [hcalc] at hEq
  have h00 := congrArg Mat2.m0 hEq
  dsimp only [mult2, multABt2, diag2] at h00
  have hc2 : Real.sqrt (1 / (1 + 1 / 400000000 * (1 / 400000000))) *
      Real.sqrt (1 / (1 + 1 / 400000000 * (1 / 400000000))) =
      1 / (1 + 1 / 400000000 * (1 / 400000000)) :=
    Real.mul_self_sqrt (by norm_num)
  have h2 : Real.sqrt (1 / (1 + 1 / 400000000 * (1 / 400000000))) *
      Real.sqrt (1 / (1 + 1 / 400000000 * (1 / 400000000))) *
      ((0 - 1 / 400000000 * 1) +
        (1 / 400000000) * (1 / 400000000) * (4e8 + 1 / 400000000 * 1)) = 0 := by
    linear_combination h00
  rw [hc2] at h2
  norm_num at h2

-- ***************************************************************************
-- C2: per-point viscosity and stress (laghos_qupdate.cpp:432-485)
-- ***************************************************************************

/-- Density at a quadrature point (laghos_qupdate.cpp:440):
`rho = inv_weight * rho0DetJ0w / detJ`. -/
def qRho (weight rho0DetJ0w : ℝ) (J : Mat2) : ℝ :=
  1 / weight * rho0DetJ0w / det2D J

/-- Sound speed at a quadrature point (laghos_qupdate.cpp:443):
`sqrt(gamma*(gamma-1)*e)` with the energy clamped to be non-negative. -/
def qSoundSpeed (gamma e_quads : ℝ) : ℝ :=
  Real.sqrt (gamma * (gamma - 1) * max 0 e_quads)

/-- Pressure at a quadrature point (laghos_qupdate.cpp:442):
`p = (gamma-1)*rho*e`. -/
def qP (gamma weight rho0DetJ0w e_quads : ℝ) (J : Mat2) : ℝ :=
  (gamma - 1) * qRho weight rho0DetJ0w J * max 0 e_quads

/-- Symmetrized current-configuration velocity gradient
(laghos_qupdate.cpp:457-458): `symmetrize(grad_v * J^-1)`. -/
def qSgradV (dV J : Mat2) : Mat2 :=
  symmetrize2 (mult2 dV (calcInverse2D J))

/-- Measure of maximal compression `mu = eig_val_data[0]`
(laghos_qupdate.cpp:475): first (smallest) value returned by the 2-D
eigensolver on the symmetrized velocity gradient. -/
def qMu (dV J : Mat2) : ℝ :=
  (calcEigenvalues2D (qSgradV dV J)).1.1

/-- Compression direction (laghos_qupdate.cpp:468): the first `dim` entries
of the eigenvector buffer. -/
def qComprDir (dV J : Mat2) : ℝ × ℝ :=
  ((calcEigenvalues2D (qSgradV dV J)).2.m0,
   (calcEigenvalues2D (qSgradV dV J)).2.m1)

/-- Compression direction mapped through the initial-to-physical Jacobian
(laghos_qupdate.cpp:470-471): `ph_dir = (J * Jac0inv) * compr_dir`. -/
def qPhDir (J Jac0inv dV : Mat2) : ℝ × ℝ :=
  multV2 (mult2 J Jac0inv) (qComprDir dV J)

/-- Compression-direction length scale (laghos_qupdate.cpp:473):
`h = h0 * norml2(ph_dir) / norml2(compr_dir)`. -/
def qH (h0 : ℝ) (J dV Jac0inv : Mat2) : ℝ :=
  h0 * norml2 [(qPhDir J Jac0inv dV).1, (qPhDir J Jac0inv dV).2] /
    norml2 [(qComprDir dV J).1, (qComprDir dV J).2]

/-- Stress/viscosity portion of the per-point body of `QUpdate2D`
(laghos_qupdate.cpp:432-485): density, clamped energy, pressure and sound
speed; stress initialized to `-p` on the diagonal; when viscosity is on, the
symmetrized velocity gradient, its smallest-eigenvalue data, the
compression-direction length scale `h`, the coefficient
`visc_coeff = 2*rho*h^2*|mu| + 0.5*rho*h*c*(1 - smooth_step_01(mu-2e-12,
1e-12))` and the update `stress += visc_coeff * sgrad_v`.  Returns the pair
`(stress, visc_coeff)`. -/
def qpointStressVisc (gamma : ℝ) (use_viscosity : Bool)
    (h0 weight rho0DetJ0w e_quads : ℝ) (J dV Jac0inv : Mat2) : Mat2 × ℝ :=
  let inv_weight := 1 / weight
  let detJ := det2D J
  let Jinv := calcInverse2D J
  let rho := inv_weight * rho0DetJ0w / detJ
  let e := max 0 e_quads
  let p := (gamma - 1) * rho * e
  let sound_speed := Real.sqrt (gamma * (gamma - 1) * e)
  let stress0 : Mat2 := ⟨-p, 0, 0, -p⟩
  if use_viscosity then
    let sgrad_v := symmetrize2 (mult2 dV Jinv)
    let eig := calcEigenvalues2D sgrad_v
    let compr_dir := (eig.2.m0, eig.2.m1)
    let Jpi := mult2 J Jac0inv
    let ph_dir := multV2 Jpi compr_dir
    let h := h0 * norml2 [ph_dir.1, ph_dir.2] / norml2 [compr_dir.1, compr_dir.2]
    let mu := eig.1.1
    let visc_coeff := 2 * rho * h * h * |mu|
    let visc_coeff2 := visc_coeff +
      0.5 * rho * h * sound_speed * (1 - smooth_step_01 (mu - 2 * 1e-12) 1e-12)
    (add2 visc_coeff2 sgrad_v stress0, visc_coeff2)
  else (stress0, 0)

/-- C2: with viscosity enabled the per-point update computes
`visc = 2*rho*h^2*|mu| + 0.5*rho*h*c*(1 - smooth_step_01(mu - 2*eps, eps))`
with `eps = 1e-12` and `mu` the smallest value returned by the eigensolver on
the symmetrized velocity gradient, and adds `visc * sgrad_v` to the isotropic
`-p` stress; in particular for `mu < 0` (so certainly for `mu` far below
`-eps`) the smooth step vanishes and the sound-speed term is fully active:
`visc = 2*rho*h^2*|mu| + 0.5*rho*h*c`. -/
theorem qpointStressVisc_spec (gamma h0 weight rho0DetJ0w e_quads : ℝ)
    (J dV Jac0inv : Mat2) (hmu : qMu dV J < 0) :
    (qpointStressVisc gamma true h0 weight rho0DetJ0w e_quads J dV Jac0inv).2 =
        2 * qRho weight rho0DetJ0w J * qH h0 J dV Jac0inv * qH h0 J dV Jac0inv *
            |qMu dV J| +
          0.5 * qRho weight rho0DetJ0w J * qH h0 J dV Jac0inv *
            qSoundSpeed gamma e_quads *
            (1 - smooth_step_01 (qMu dV J - 2 * 1e-12) 1e-12) ∧
    (qpointStressVisc gamma true h0 weight rho0DetJ0w e_quads J dV Jac0inv).1 =
      add2 (qpointStressVisc gamma true h0 weight rho0DetJ0w e_quads J dV Jac0inv).2
        (qSgradV dV J)
        ⟨-qP gamma weight rho0DetJ0w e_quads J, 0, 0,
          -qP gamma weight rho0DetJ0w e_quads J⟩ ∧
    (qpointStressVisc gamma true h0 weight rho0DetJ0w e_quads J dV Jac0inv).2 =
      2 * qRho weight rho0DetJ0w J * qH h0 J dV Jac0inv * qH h0 J dV Jac0inv *
          |qMu dV J| +
        0.5 * qRho weight rho0DetJ0w J * qH h0 J dV Jac0inv *
          qSoundSpeed gamma e_quads := by
  have hstep : smooth_step_01 (qMu dV J - 2 * 1e-12) 1e-12 = 0 :=
    smooth_step_01_of_le (by norm_num) (by linarith)
  have h1 : (qpointStressVisc gamma true h0 weight rho0DetJ0w e_quads J dV Jac0inv).2 =
      2 * qRho weight rho0DetJ0w J * qH h0 J dV Jac0inv * qH h0 J dV Jac0inv *
          |qMu dV J| +
        0.5 * qRho weight rho0DetJ0w J * qH h0 J dV Jac0inv *
          qSoundSpeed gamma e_quads *
          (1 - smooth_step_01 (qMu dV J - 2 * 1e-12) 1e-12) := rfl
  refine ⟨h1, rfl, ?_⟩
  rw [h1, hstep]
  ring

/-- Witness for C2: identity Jacobian and `Jac0inv`, uniform compression
velocity gradient `diag(-1,-1)` (so `mu = -1 < 0`), unit weight, reference
mass and energy, `gamma = 2`, `h0 = 1`. -/
theorem qpointStressVisc_spec_witness :
    qMu ⟨-1, 0, 0, -1⟩ ⟨1, 0, 0, 1⟩ < 0 ∧
    (qpointStressVisc 2 true 1 1 1 1 ⟨1, 0, 0, 1⟩ ⟨-1, 0, 0, -1⟩ ⟨1, 0, 0, 1⟩).2 =
      2 * qRho 1 1 ⟨1, 0, 0, 1⟩ *
          qH 1 ⟨1, 0, 0, 1⟩ ⟨-1, 0, 0, -1⟩ ⟨1, 0, 0, 1⟩ *
          qH 1 ⟨1, 0, 0, 1⟩ ⟨-1, 0, 0, -1⟩ ⟨1, 0, 0, 1⟩ *
          |qMu ⟨-1, 0, 0, -1⟩ ⟨1, 0, 0, 1⟩| +
        0.5 * qRho 1 1 ⟨1, 0, 0, 1⟩ *
          qH 1 ⟨1, 0, 0, 1⟩ ⟨-1, 0, 0, -1⟩ ⟨1, 0, 0, 1⟩ * qSoundSpeed 2 1 :=
  ⟨by norm_num [qMu, qSgradV, mult2, calcInverse2D, det2D, symmetrize2,
      calcEigenvalues2D, eigensystem2S],
   (qpointStressVisc_spec 2 1 1 1 1 ⟨1, 0, 0, 1⟩ ⟨-1, 0, 0, -1⟩ ⟨1, 0, 0, 1⟩
     (by norm_num [qMu, qSgradV, mult2, calcInverse2D, det2D, symmetrize2,
        calcEigenvalues2D, eigensystem2S])).2.2⟩
